import Mathlib

/-!
Verification of the CSV transliteration scripts of the hebrew-transliteration
repository (`scripts/transliterate_csv.ts` and its JavaScript sibling with the
error policy).  The scripts read a pipe-delimited CSV line by line, locate the
`vocalized` column, call an external transliteration capability on that field
and write each row back with the result appended as an extra `tiberian` field.

The external capability `transliterate(text, tiberian)` is modelled as an
abstract function `translit : String → Option String`; `none` models the
capability throwing an invalid-input error.  File streams are modelled as
lists of lines; the interactive prompt is modelled by a list of operator
answers, a missing answer (end of input) being coerced to the empty string
exactly as `String(answer || "")` does in `promptToContinue`.
-/

namespace HebTranslit

/-- The JavaScript `\s` character class (also used by `String.prototype.trim`):
space, the control whitespace characters, and the Unicode space separators
together with the BOM. -/
def jsIsWhitespace (c : Char) : Bool :=
  c = ' ' || c = '\t' || c = '\n' || c = '\x0b' || c = '\x0c' || c = '\r' ||
  c = '\u00a0' || c = '\u1680' || ('\u2000' ≤ c && c ≤ '\u200a') ||
  c = '\u2028' || c = '\u2029' || c = '\u202f' || c = '\u205f' ||
  c = '\u3000' || c = '\ufeff'

/-- `rawLine.replace(/uFEFF/g, "")`: every byte-order mark in the line is
removed (the regex carries the global flag). -/
def stripBOM (s : String) : String :=
  String.mk (s.toList.filter (fun c => c ≠ '\ufeff'))

/-- `line.trim() === ""`: the line consists of JS whitespace only. -/
def isBlank (s : String) : Bool :=
  s.toList.all jsIsWhitespace

/-- `String.prototype.split` with a one-character separator, on the character
list of the string: `"".split(d)` is `[""]`, and each separator occurrence
opens a new (possibly empty) cell. -/
def splitCells (delim : Char) : List Char → List (List Char)
  | [] => [[]]
  | c :: rest =>
    if c = delim then [] :: splitCells delim rest
    else
      match splitCells delim rest with
      | [] => [[c]]
      | g :: gs => (c :: g) :: gs

/-- `line.replace(/\r?$/, "")`: a single carriage return at the very end of
the line is removed, nothing else changes. -/
def stripTrailingCR (cs : List Char) : List Char :=
  if cs.getLast? = some '\r' then cs.dropLast else cs

/-- `parseCsvLine(line, "|")` from the scripts: trim one trailing CR, then a
plain split on the delimiter.  No quote handling of any kind is performed. -/
def parseCsvLine (line : String) : List String :=
  (splitCells '|' (stripTrailingCR line.toList)).map String.mk

/-- `c.replace(/"/g, '""')` at the character level: every quote character is
doubled. -/
def escapeQuotes (cs : List Char) : List Char :=
  cs.flatMap (fun c => if c = '"' then ['"', '"'] else [c])

/-- The per-cell step of `joinCsvLine`: a cell containing the delimiter is
wrapped in quotes with its embedded quotes doubled; any other cell is left
unchanged. -/
def quoteCell (c : String) : String :=
  if '|' ∈ c.toList then String.mk ('"' :: (escapeQuotes c.toList ++ ['"'])) else c

/-- `Array.prototype.join` with a one-character separator, at the character
level. -/
def joinCells (delim : Char) : List (List Char) → List Char
  | [] => []
  | [c] => c
  | c :: c2 :: cs => c ++ delim :: joinCells delim (c2 :: cs)

/-- `joinCsvLine(cells, "|")` from the scripts: quote the cells that contain
the delimiter, then join on the delimiter. -/
def joinCsvLine (cells : List String) : String :=
  String.mk (joinCells '|' ((cells.map quoteCell).map String.toList))

/-- ASCII lowering, the fragment of `String.prototype.toLowerCase` relevant to
the `"y"`/`"yes"` comparison. -/
def asciiToLower (c : Char) : Char :=
  if 'A' ≤ c && c ≤ 'Z' then Char.ofNat (c.toNat + 32) else c

/-- `String.prototype.trim`: JS whitespace removed from both ends. -/
def jsTrim (s : String) : String :=
  String.mk (((s.toList.dropWhile jsIsWhitespace).reverse.dropWhile jsIsWhitespace).reverse)

/-- `String(answer || "").trim().toLowerCase()` from `promptToContinue`. -/
def normalizeAnswer (s : String) : String :=
  String.mk ((jsTrim s).toList.map asciiToLower)

/-- `normalized === "y" || normalized === "yes"`: the prompt resolves to
`true` exactly on these two normalized answers. -/
def isAffirmative (ans : String) : Bool :=
  normalizeAnswer ans = "y" || normalizeAnswer ans = "yes"

/-- The separator class of `findOffendingWord`: JS whitespace, the Hebrew
maqaf U+05BE, the ASCII hyphen, and the dash block U+2010–U+2015. -/
def isSepChar (c : Char) : Bool :=
  jsIsWhitespace c || c = '\u05be' || c = '-' || ('\u2010' ≤ c && c ≤ '\u2015')

/-- `heb.split(/([\s,maqaf,hyphen,dashes]+)/u).filter(Boolean)`: splitting on
a captured separator run keeps the separators, so after discarding empty
strings the result is the list of maximal runs of separator respectively
non-separator characters, in order. -/
def tokenize (heb : String) : List String :=
  (heb.toList.splitBy (fun a b => isSepChar a == isSepChar b)).map String.mk

/-- The loop body of `findOffendingWord`: pure-separator tokens are skipped,
and the first remaining token on which the capability fails is returned. -/
def findLoop (translit : String → Option String) : List String → Option String
  | [] => none
  | tok :: rest =>
    if tok.toList.all isSepChar then findLoop translit rest
    else
      match translit tok with
      | some _ => findLoop translit rest
      | none => some tok

/-- `findOffendingWord(heb)` from the script, with the transliteration
capability abstracted. -/
def findOffendingWord (translit : String → Option String) (heb : String) : Option String :=
  findLoop translit (tokenize heb)

/-- `while (cells.length < headerCells.length) cells.push("")`: right-pad a
row with empty fields up to the header length; longer rows are untouched. -/
def padRow (headerLen : Nat) (cells : List String) : List String :=
  cells ++ List.replicate (headerLen - cells.length) ""

/-- The per-row transliteration step of `main`: parse, pad, read the
`vocalized` cell, and call the capability unless the cell is empty (an absent
cell reads as the empty string, as the JS `heb ? … : ""` guard treats
`undefined` and `""` alike). -/
def rowTib (translit : String → Option String) (headerLen vocIdx : Nat)
    (line : String) : Option String :=
  let heb := (padRow headerLen (parseCsvLine line)).getD vocIdx ""
  if heb = "" then some "" else translit heb

/-- The output line written for a processed row: the padded cells with the
transliteration result appended, joined by `joinCsvLine`. -/
def rowOut (headerLen : Nat) (line tib : String) : String :=
  joinCsvLine (padRow headerLen (parseCsvLine line) ++ [tib])

/-- Result of the row-processing loop of `main`: the lines written to the
output stream after the header (in order), the 1-based line numbers at which
a per-row diagnostic was logged, whether the loop was aborted by the operator
declining the prompt (`process.exitCode = 1; break`), and the operator
answers not yet consumed. -/
structure LoopResult where
  output : List String
  errors : List Nat
  aborted : Bool
  answersLeft : List String
deriving DecidableEq, Repr

/-- The `for await (const rawLine of rl)` loop of `main` after the header has
been processed.  `n` is the number of physical lines already consumed, so the
current line carries 1-based number `n + 1`; every line, blank or not,
increments the counter.  On a transliteration failure a diagnostic is logged,
then skip mode (or an affirmative prompt answer) emits the row with an empty
transliteration field, while a non-affirmative answer sets the exit code and
breaks out of the loop. -/
def processRows (translit : String → Option String) (headerLen vocIdx : Nat)
    (skipErrors : Bool) : List String → Nat → List String → LoopResult
  | answers, _, [] => ⟨[], [], false, answers⟩
  | answers, n, rawLine :: rest =>
    let line := stripBOM rawLine
    if isBlank line then
      processRows translit headerLen vocIdx skipErrors answers (n + 1) rest
    else
      match rowTib translit headerLen vocIdx line with
      | some tib =>
        let r := processRows translit headerLen vocIdx skipErrors answers (n + 1) rest
        ⟨rowOut headerLen line tib :: r.output, r.errors, r.aborted, r.answersLeft⟩
      | none =>
        if skipErrors then
          let r := processRows translit headerLen vocIdx skipErrors answers (n + 1) rest
          ⟨rowOut headerLen line "" :: r.output, (n + 1) :: r.errors, r.aborted, r.answersLeft⟩
        else if isAffirmative (answers.headD "") then
          let r := processRows translit headerLen vocIdx skipErrors answers.tail (n + 1) rest
          ⟨rowOut headerLen line "" :: r.output, (n + 1) :: r.errors, r.aborted, r.answersLeft⟩
        else ⟨[], [n + 1], true, answers.tail⟩

/-- The final status line: `Wrote: <path>` on a zero exit code, the distinct
`Completed with errors` message otherwise. -/
inductive FinalMsg where
  | wrote
  | completedWithErrors
deriving DecidableEq, Repr

/-- Observable outcome of a whole run of `main` on an existing input file:
process exit code, the lines written to the output file in order, the line
numbers of per-row diagnostics, and the final status message (`none` when the
process exits before reaching the end-of-run reporting, as it does on a
missing `vocalized` column). -/
structure RunResult where
  exitCode : Nat
  output : List String
  errors : List Nat
  finalMessage : Option FinalMsg
deriving DecidableEq, Repr

/-- `main` on the list of input lines.  The first line is the header: its BOM
is stripped, it is parsed, and `headerCells.indexOf("vocalized")` must
succeed, else the process exits with status 1 having written nothing.
Otherwise the header with `tiberian` appended is written and the remaining
lines are processed starting from physical line number 1 (the header's own
number). -/
def run (translit : String → Option String) (skipErrors : Bool)
    (answers : List String) : List String → RunResult
  | [] => ⟨0, [], [], some FinalMsg.wrote⟩
  | headerLine :: rest =>
    let headerCells := parseCsvLine (stripBOM headerLine)
    match headerCells.findIdx? (fun c => c = "vocalized") with
    | none => ⟨1, [], [], none⟩
    | some vocIdx =>
      let r := processRows translit headerCells.length vocIdx skipErrors answers 1 rest
      ⟨if r.aborted then 1 else 0,
       joinCsvLine (headerCells ++ ["tiberian"]) :: r.output,
       r.errors,
       some (if r.aborted then FinalMsg.completedWithErrors else FinalMsg.wrote)⟩

/-- Spec-side description of the successful output rows: each non-blank line,
in input order, padded to the header length with the transliteration result
appended. -/
def specSuccessOutput (translit : String → Option String) (headerLen vocIdx : Nat)
    (rows : List String) : List String :=
  ((rows.map stripBOM).filter (fun l => !isBlank l)).map
    (fun l => rowOut headerLen l ((rowTib translit headerLen vocIdx l).getD ""))

/-! ### Lemmas about the CSV cell split and join -/

theorem splitCells_ne_nil (d : Char) (cs : List Char) : splitCells d cs ≠ [] := by
  induction cs with
  | nil => simp [splitCells]
  | cons c rest ih =>
    simp only [splitCells]
    by_cases h : c = d
    · simp [h]
    · simp only [if_neg h]
      cases hg : splitCells d rest with
      | nil => simp
      | cons g gs => simp

theorem splitCells_no_delim (d : Char) (cs : List Char) (h : d ∉ cs) :
    splitCells d cs = [cs] := by
  induction cs with
  | nil => rfl
  | cons c rest ih =>
    simp only [List.mem_cons, not_or] at h
    simp only [splitCells, if_neg (fun (he : c = d) => h.1 he.symm), ih h.2]

theorem splitCells_append_delim (d : Char) (cs l : List Char) (h : d ∉ cs) :
    splitCells d (cs ++ d :: l) = cs :: splitCells d l := by
  induction cs with
  | nil => simp [splitCells]
  | cons c rest ih =>
    simp only [List.mem_cons, not_or] at h
    simp only [List.cons_append, splitCells, if_neg (fun (he : c = d) => h.1 he.symm)]
    rw [show List.append rest (d :: l) = rest ++ d :: l from rfl, ih h.2]

theorem splitCells_joinCells (d : Char) (cls : List (List Char)) (h1 : cls ≠ [])
    (h2 : ∀ cs ∈ cls, d ∉ cs) : splitCells d (joinCells d cls) = cls := by
  induction cls with
  | nil => exact absurd rfl h1
  | cons c rest ih =>
    cases rest with
    | nil =>
      exact splitCells_no_delim d c (h2 c (List.mem_cons_self c []))
    | cons c2 rest2 =>
      have hc : d ∉ c := h2 c (List.mem_cons_self c _)
      have hrest : ∀ cs ∈ c2 :: rest2, d ∉ cs := fun cs hcs => h2 cs (List.mem_cons_of_mem c hcs)
      simp only [joinCells, splitCells_append_delim d c _ hc,
        ih (List.cons_ne_nil c2 rest2) hrest]

theorem splitCells_length_ge_two (d : Char) (cs : List Char) (h : d ∈ cs) :
    2 ≤ (splitCells d cs).length := by
  induction cs with
  | nil => simp at h
  | cons c rest ih =>
    simp only [splitCells]
    by_cases hc : c = d
    · simp only [if_pos hc, List.length_cons]
      have := splitCells_ne_nil d rest
      have : 1 ≤ (splitCells d rest).length := List.length_pos.mpr this
      omega
    · have hrest : d ∈ rest := by
        rcases List.mem_cons.mp h with h1 | h1
        · exact absurd h1.symm hc
        · exact h1
      simp only [if_neg hc]
      cases hg : splitCells d rest with
      | nil => exact absurd hg (splitCells_ne_nil d rest)
      | cons g gs =>
        have := ih hrest
        rw [hg] at this
        simpa using this

theorem joinCells_getLast_ne_cr (d : Char) (hd : d ≠ '\r') (cls : List (List Char))
    (hne : cls ≠ []) (h : ∀ cs ∈ cls, cs.getLast? ≠ some '\r') :
    (joinCells d cls).getLast? ≠ some '\r' := by
  induction cls with
  | nil => exact absurd rfl hne
  | cons c rest ih =>
    cases rest with
    | nil => exact h c (List.mem_cons_self c [])
    | cons c2 rest2 =>
      have hrest : ∀ cs ∈ c2 :: rest2, cs.getLast? ≠ some '\r' :=
        fun cs hcs => h cs (List.mem_cons_of_mem c hcs)
      have ihr := ih (List.cons_ne_nil c2 rest2) hrest
      simp only [joinCells, List.getLast?_append, List.getLast?_cons]
      cases hj : (joinCells d (c2 :: rest2)).getLast? with
      | none =>
        simp only [Option.getD_none, Option.or]
        intro hcon
        exact hd (Option.some.inj hcon)
      | some x =>
        rw [hj] at ihr
        simp only [Option.getD_some, Option.or]
        exact ihr

theorem mk_toList (s : String) : String.mk s.toList = s := rfl

theorem quoteCell_eq_self (c : String) (h : '|' ∉ c.toList) : quoteCell c = c :=
  if_neg h

/-- C10 counterexample: the empty cell list does not round-trip, because
joining it yields the empty line and splitting the empty line yields the
one-element list holding the empty field, just as `"".split("|")` is `[""]`
in JavaScript. -/
theorem c10_counterexample : parseCsvLine (joinCsvLine []) ≠ ([] : List String) := by
  decide

/-- C10 (amended): for every nonempty list of field strings in which no field
contains the delimiter or the quote character and no field ends with a
carriage return, parsing the joined line yields the original list back. -/
theorem c10_roundtrip (cells : List String) (hne : cells ≠ [])
    (hdelim : ∀ c ∈ cells, '|' ∉ c.toList)
    (hquote : ∀ c ∈ cells, '"' ∉ c.toList)
    (hcr : ∀ c ∈ cells, c.toList.getLast? ≠ some '\r') :
    parseCsvLine (joinCsvLine cells) = cells := by
  have hq : cells.map quoteCell = cells := by
    have : cells.map quoteCell = cells.map id :=
      List.map_congr_left fun c hc => quoteCell_eq_self c (hdelim c hc)
    simpa using this
  have hclsne : cells.map String.toList ≠ [] := by
    simpa [List.map_eq_nil_iff] using hne
  have hclsdelim : ∀ cs ∈ cells.map String.toList, '|' ∉ cs := by
    intro cs hcs
    rcases List.mem_map.mp hcs with ⟨c, hc, rfl⟩
    exact hdelim c hc
  have hclscr : ∀ cs ∈ cells.map String.toList, cs.getLast? ≠ some '\r' := by
    intro cs hcs
    rcases List.mem_map.mp hcs with ⟨c, hc, rfl⟩
    exact hcr c hc
  have hlast : (joinCells '|' (cells.map String.toList)).getLast? ≠ some '\r' :=
    joinCells_getLast_ne_cr '|' (by decide) _ hclsne hclscr
  unfold joinCsvLine parseCsvLine
  rw [hq]
  show (splitCells '|' (stripTrailingCR
      (String.mk (joinCells '|' (cells.map String.toList))).toList)).map String.mk = cells
  have htl : (String.mk (joinCells '|' (cells.map String.toList))).toList =
      joinCells '|' (cells.map String.toList) := rfl
  rw [htl]
  rw [stripTrailingCR, if_neg hlast]
  rw [splitCells_joinCells '|' _ hclsne hclsdelim]
  rw [List.map_map]
  simp [Function.comp_def, mk_toList]

/-- C10 witness: a concrete nonempty list round-trips through join and
parse. -/
theorem c10_witness : parseCsvLine (joinCsvLine ["ab", "cd", ""]) = ["ab", "cd", ""] :=
  c10_roundtrip ["ab", "cd", ""] (by decide) (by decide) (by decide) (by decide)

/-! ### C3: quoting on output versus the quote-free parser -/

theorem mem_escapeQuotes_of_mem (cs : List Char) (h : '|' ∈ cs) : '|' ∈ escapeQuotes cs := by
  unfold escapeQuotes
  rw [List.mem_flatMap]
  exact ⟨'|', h, by simp⟩

/-- C3 counterexample: the field `a|b` contains the delimiter; it is written
as `"a|b"`, but re-parsing that output with the program's own parsing rule (a
plain split with no unquoting) yields two fields, not the original one. -/
theorem c3_counterexample : parseCsvLine (joinCsvLine ["a|b"]) ≠ ["a|b"] := by
  decide

/-- C3 (amended): for every field string that contains the delimiter,
writing it quotes the field and doubles every embedded quote character, but
re-parsing that written output with the program's own parsing rule does not
recover the original field: the parser performs a plain split on the
delimiter and has no quote-unescaping rule, so the written field is split
at its embedded delimiters. -/
theorem c3_quoting_no_roundtrip (c : String) (h : '|' ∈ c.toList) :
    joinCsvLine [c] = String.mk ('"' :: (escapeQuotes c.toList ++ ['"'])) ∧
    parseCsvLine (joinCsvLine [c]) ≠ [c] := by
  have hqc : quoteCell c = String.mk ('"' :: (escapeQuotes c.toList ++ ['"'])) := by
    unfold quoteCell
    rw [if_pos h]
  have hjoin : joinCsvLine [c] = String.mk ('"' :: (escapeQuotes c.toList ++ ['"'])) := by
    have : joinCsvLine [c] = quoteCell c := by
      simp [joinCsvLine, joinCells, mk_toList]
    rw [this, hqc]
  refine ⟨hjoin, ?_⟩
  rw [hjoin]
  intro hcon
  have hmem : '|' ∈ ('"' :: (escapeQuotes c.toList ++ ['"'])) := by
    right
    exact List.mem_append_left _ (mem_escapeQuotes_of_mem c.toList h)
  have hlastne : ('"' :: (escapeQuotes c.toList ++ ['"'])).getLast? ≠ some '\r' := by
    rw [List.getLast?_cons, List.getLast?_append]
    simp
  have hlen : 2 ≤ (parseCsvLine (String.mk ('"' :: (escapeQuotes c.toList ++ ['"'])))).length := by
    unfold parseCsvLine
    rw [List.length_map]
    have htl : (String.mk ('"' :: (escapeQuotes c.toList ++ ['"']))).toList =
        '"' :: (escapeQuotes c.toList ++ ['"']) := rfl
    rw [htl, stripTrailingCR, if_neg hlastne]
    exact splitCells_length_ge_two '|' _ hmem
  rw [hcon] at hlen
  simp at hlen

/-- C3 witness: the amended statement at the concrete field `a|b`. -/
theorem c3_witness :
    joinCsvLine ["a|b"] = String.mk ('"' :: (escapeQuotes "a|b".toList ++ ['"'])) ∧
    parseCsvLine (joinCsvLine ["a|b"]) ≠ ["a|b"] :=
  c3_quoting_no_roundtrip "a|b" (by decide)

/-! ### Step lemmas for the row-processing loop -/

theorem processRows_nil (tr : String → Option String) (hl vi : Nat) (sk : Bool)
    (ans : List String) (n : Nat) :
    processRows tr hl vi sk ans n [] = ⟨[], [], false, ans⟩ := rfl

theorem processRows_blank_step (tr : String → Option String) (hl vi : Nat) (sk : Bool)
    (ans : List String) (n : Nat) (l : String) (rest : List String)
    (hb : isBlank (stripBOM l) = true) :
    processRows tr hl vi sk ans n (l :: rest) =
      processRows tr hl vi sk ans (n + 1) rest := by
  simp only [processRows]
  rw [if_pos hb]

theorem processRows_success_step (tr : String → Option String) (hl vi : Nat) (sk : Bool)
    (ans : List String) (n : Nat) (l : String) (rest : List String) (tib : String)
    (hb : isBlank (stripBOM l) = false)
    (ht : rowTib tr hl vi (stripBOM l) = some tib) :
    processRows tr hl vi sk ans n (l :: rest) =
      (let r := processRows tr hl vi sk ans (n + 1) rest
       ⟨rowOut hl (stripBOM l) tib :: r.output, r.errors, r.aborted, r.answersLeft⟩) := by
  simp only [processRows]
  rw [if_neg (by simp [hb]), ht]

theorem processRows_failure_step (tr : String → Option String) (hl vi : Nat) (sk : Bool)
    (ans : List String) (n : Nat) (l : String) (rest : List String)
    (hb : isBlank (stripBOM l) = false)
    (ht : rowTib tr hl vi (stripBOM l) = none) :
    processRows tr hl vi sk ans n (l :: rest) =
      (if sk then
        let r := processRows tr hl vi sk ans (n + 1) rest
        ⟨rowOut hl (stripBOM l) "" :: r.output, (n + 1) :: r.errors, r.aborted, r.answersLeft⟩
      else if isAffirmative (ans.headD "") then
        let r := processRows tr hl vi sk ans.tail (n + 1) rest
        ⟨rowOut hl (stripBOM l) "" :: r.output, (n + 1) :: r.errors, r.aborted, r.answersLeft⟩
      else ⟨[], [n + 1], true, ans.tail⟩) := by
  simp only [processRows]
  rw [if_neg (by simp [hb]), ht]

theorem processRows_skip_not_aborted (tr : String → Option String) (hl vi : Nat)
    (lines : List String) : ∀ (ans : List String) (n : Nat),
    (processRows tr hl vi true ans n lines).aborted = false := by
  induction lines with
  | nil => intro ans n; rfl
  | cons l rest ih =>
    intro ans n
    by_cases hb : isBlank (stripBOM l) = true
    · rw [processRows_blank_step tr hl vi true ans n l rest hb]
      exact ih ans (n + 1)
    · have hb2 : isBlank (stripBOM l) = false := by simpa using hb
      cases ht : rowTib tr hl vi (stripBOM l) with
      | some tib =>
        rw [processRows_success_step tr hl vi true ans n l rest tib hb2 ht]
        exact ih ans (n + 1)
      | none =>
        rw [processRows_failure_step tr hl vi true ans n l rest hb2 ht]
        simp only [if_pos rfl]
        exact ih ans (n + 1)

theorem processRows_all_success (tr : String → Option String) (hl vi : Nat) (sk : Bool)
    (lines : List String) : ∀ (ans : List String) (n : Nat),
    (∀ l ∈ lines, isBlank (stripBOM l) = false → rowTib tr hl vi (stripBOM l) ≠ none) →
    processRows tr hl vi sk ans n lines =
      ⟨specSuccessOutput tr hl vi lines, [], false, ans⟩ := by
  induction lines with
  | nil => intro ans n _; rfl
  | cons l rest ih =>
    intro ans n h
    have hrest : ∀ x ∈ rest, isBlank (stripBOM x) = false → rowTib tr hl vi (stripBOM x) ≠ none :=
      fun x hx => h x (List.mem_cons_of_mem l hx)
    by_cases hb : isBlank (stripBOM l) = true
    · rw [processRows_blank_step tr hl vi sk ans n l rest hb, ih ans (n + 1) hrest]
      simp [specSuccessOutput, hb]
    · have hb2 : isBlank (stripBOM l) = false := by simpa using hb
      have hne := h l (List.mem_cons_self l rest) hb2
      cases ht : rowTib tr hl vi (stripBOM l) with
      | none => exact absurd ht hne
      | some tib =>
        rw [processRows_success_step tr hl vi sk ans n l rest tib hb2 ht, ih ans (n + 1) hrest]
        simp [specSuccessOutput, hb2, ht]

theorem processRows_output_extends (tr : String → Option String) (hl vi : Nat) (sk : Bool)
    (pre : List String) : ∀ (suf ans : List String) (n : Nat),
    (processRows tr hl vi sk ans n pre).aborted = false →
    ∃ t, (processRows tr hl vi sk ans n (pre ++ suf)).output =
      (processRows tr hl vi sk ans n pre).output ++ t := by
  induction pre with
  | nil =>
    intro suf ans n _
    exact ⟨(processRows tr hl vi sk ans n suf).output, by simp [processRows_nil]⟩
  | cons l pre ih =>
    intro suf ans n habort
    by_cases hb : isBlank (stripBOM l) = true
    · rw [List.cons_append, processRows_blank_step tr hl vi sk ans n l _ hb]
      rw [processRows_blank_step tr hl vi sk ans n l pre hb] at habort ⊢
      exact ih suf ans (n + 1) habort
    · have hb2 : isBlank (stripBOM l) = false := by simpa using hb
      cases ht : rowTib tr hl vi (stripBOM l) with
      | some tib =>
        rw [List.cons_append, processRows_success_step tr hl vi sk ans n l _ tib hb2 ht]
        rw [processRows_success_step tr hl vi sk ans n l pre tib hb2 ht] at habort ⊢
        simp only at habort ⊢
        rcases ih suf ans (n + 1) habort with ⟨t, htail⟩
        exact ⟨t, by rw [htail, List.cons_append]⟩
      | none =>
        rw [List.cons_append, processRows_failure_step tr hl vi sk ans n l _ hb2 ht]
        rw [processRows_failure_step tr hl vi sk ans n l pre hb2 ht] at habort ⊢
        by_cases hsk : sk = true
        · simp only [if_pos hsk] at habort ⊢
          rcases ih suf ans (n + 1) habort with ⟨t, htail⟩
          exact ⟨t, by rw [htail, List.cons_append]⟩
        · simp only [if_neg hsk] at habort ⊢
          by_cases hyes : isAffirmative (ans.headD "") = true
          · simp only [if_pos hyes] at habort ⊢
            rcases ih suf ans.tail (n + 1) habort with ⟨t, htail⟩
            exact ⟨t, by rw [htail, List.cons_append]⟩
          · simp only [if_neg hyes] at habort
            simp at habort

theorem processRows_blanks_consumed (tr : String → Option String) (hl vi : Nat) (sk : Bool)
    (pre : List String) : ∀ (suf ans : List String) (n : Nat),
    (∀ b ∈ pre, isBlank (stripBOM b) = true) →
    processRows tr hl vi sk ans n (pre ++ suf) =
      processRows tr hl vi sk ans (n + pre.length) suf := by
  induction pre with
  | nil => intro suf ans n _; simp
  | cons b pre ih =>
    intro suf ans n h
    rw [List.cons_append, processRows_blank_step tr hl vi sk ans n b _
        (h b (List.mem_cons_self b pre)),
      ih suf ans (n + 1) (fun x hx => h x (List.mem_cons_of_mem b hx))]
    have : n + 1 + pre.length = n + (b :: pre).length := by
      simp [List.length_cons]
      omega
    rw [this]

/-! ### Reduction lemmas for the whole run -/

theorem run_cons_some (tr : String → Option String) (sk : Bool) (ans : List String)
    (headerLine : String) (rest : List String) (vocIdx : Nat)
    (hidx : (parseCsvLine (stripBOM headerLine)).findIdx? (fun c => c = "vocalized") =
      some vocIdx) :
    run tr sk ans (headerLine :: rest) =
      (let r := processRows tr (parseCsvLine (stripBOM headerLine)).length vocIdx sk ans 1 rest
       ⟨if r.aborted then 1 else 0,
        joinCsvLine (parseCsvLine (stripBOM headerLine) ++ ["tiberian"]) :: r.output,
        r.errors,
        some (if r.aborted then FinalMsg.completedWithErrors else FinalMsg.wrote)⟩) := by
  simp only [run]
  rw [hidx]

theorem run_cons_none (tr : String → Option String) (sk : Bool) (ans : List String)
    (headerLine : String) (rest : List String)
    (hidx : (parseCsvLine (stripBOM headerLine)).findIdx? (fun c => c = "vocalized") = none) :
    run tr sk ans (headerLine :: rest) = ⟨1, [], [], none⟩ := by
  simp only [run]
  rw [hidx]

/-! ### Claim theorems -/

theorem findLoop_eq_find (translit : String → Option String) (ts : List String) :
    findLoop translit ts =
      (ts.filter (fun t => !t.toList.all isSepChar)).find? (fun t => (translit t).isNone) := by
  induction ts with
  | nil => rfl
  | cons t ts ih =>
    by_cases hs : t.toList.all isSepChar = true
    · have hfilter : List.filter (fun t => !t.toList.all isSepChar) (t :: ts) =
          List.filter (fun t => !t.toList.all isSepChar) ts := by
        rw [List.filter_cons]
        rw [hs]
        simp
      rw [hfilter, ← ih]
      simp only [findLoop, if_pos hs]
    · have hs2 : t.toList.all isSepChar = false := by simpa using hs
      have hfilter : List.filter (fun t => !t.toList.all isSepChar) (t :: ts) =
          t :: List.filter (fun t => !t.toList.all isSepChar) ts := by
        rw [List.filter_cons]
        rw [hs2]
        simp
      rw [hfilter]
      simp only [findLoop, if_neg hs]
      cases htt : translit t with
      | some v =>
        simp only [htt]
        rw [List.find?_cons_of_neg (p := fun t => (translit t).isNone) _ (by simp [htt])]
        exact ih
      | none =>
        simp only [htt]
        rw [List.find?_cons_of_pos (p := fun t => (translit t).isNone) _ (by simp [htt])]

/-- C7: in debug mode the offending-token search splits the field into
maximal runs of separator and non-separator characters (whitespace, maqaf,
hyphen and the dash block), discards the pure-separator tokens, and reports
the first remaining token, in left-to-right order, on which the
transliteration capability itself fails; when every individual non-separator
token succeeds, no offending token is reported. -/
theorem c7_offending_token (translit : String → Option String) (heb : String) :
    findOffendingWord translit heb =
      ((tokenize heb).filter (fun t => !t.toList.all isSepChar)).find?
        (fun t => (translit t).isNone) ∧
    ((∀ t ∈ tokenize heb, t.toList.all isSepChar = false → translit t ≠ none) →
      findOffendingWord translit heb = none) := by
  refine ⟨findLoop_eq_find translit (tokenize heb), fun h => ?_⟩
  rw [findOffendingWord, findLoop_eq_find, List.find?_eq_none]
  intro x hx
  rcases List.mem_filter.mp hx with ⟨hmem, hpred⟩
  have hne : translit x ≠ none := h x hmem (by simpa using hpred)
  cases hx2 : translit x with
  | none => exact absurd hx2 hne
  | some v => simp [hx2]

/-- C7 witness: the characterization applied at a concrete probe that fails
exactly on the token `cd`, and at a probe that succeeds on every token. -/
theorem c7_witness :
    findOffendingWord (fun s => if s = "cd" then none else some s) "ab-cd ef" =
      some "cd" ∧
    findOffendingWord (fun s => some s) "ab-cd ef" = none := by
  have h1 := (c7_offending_token (fun s => if s = "cd" then none else some s) "ab-cd ef").1
  have h2 := (c7_offending_token (fun s => some s) "ab-cd ef").2 (by decide)
  exact ⟨by rw [h1]; decide, h2⟩

/-- C1: for every input whose header carries a `vocalized` column, when the
`vocalized` field of every non-blank row transliterates successfully, every
output row written equals the input row (right-padded with empty fields to
the header length) with the transliteration result appended as one extra
field, the rows appear in the output in exactly the input order, no per-row
diagnostic is logged, and the run completes cleanly. -/
theorem c1_success_rows (tr : String → Option String) (sk : Bool) (ans : List String)
    (headerLine : String) (rows : List String) (vocIdx : Nat)
    (hidx : (parseCsvLine (stripBOM headerLine)).findIdx? (fun c => c = "vocalized") =
      some vocIdx)
    (hok : ∀ l ∈ rows, isBlank (stripBOM l) = false →
      rowTib tr (parseCsvLine (stripBOM headerLine)).length vocIdx (stripBOM l) ≠ none) :
    run tr sk ans (headerLine :: rows) =
      ⟨0, joinCsvLine (parseCsvLine (stripBOM headerLine) ++ ["tiberian"]) ::
          specSuccessOutput tr (parseCsvLine (stripBOM headerLine)).length vocIdx rows,
       [], some FinalMsg.wrote⟩ := by
  rw [run_cons_some tr sk ans headerLine rows vocIdx hidx,
    processRows_all_success tr (parseCsvLine (stripBOM headerLine)).length vocIdx sk
      rows ans 1 hok]
  rfl

/-- C1 witness: a concrete run in which the single data row transliterates
successfully. -/
theorem c1_witness :
    run (fun s => some ("T" ++ s)) true [] ["book|vocalized", "Gen|x"] =
      ⟨0, joinCsvLine (parseCsvLine (stripBOM "book|vocalized") ++ ["tiberian"]) ::
          specSuccessOutput (fun s => some ("T" ++ s))
            (parseCsvLine (stripBOM "book|vocalized")).length 1 ["Gen|x"],
       [], some FinalMsg.wrote⟩ :=
  c1_success_rows (fun s => some ("T" ++ s)) true [] "book|vocalized" ["Gen|x"] 1
    (by decide) (by decide)

/-- C2: when the transliteration capability rejects a row, the failure is
handled per the selected error policy: in skip mode, or when the operator
answers the prompt affirmatively, the affected row is still emitted with an
empty transliteration field and processing continues; on a non-affirmative
answer the loop stops emitting rows; and in every case the output already
written for the preceding lines is preserved (the loop only ever appends). -/
theorem c2_failure_policy (tr : String → Option String) (hl vi : Nat) (sk : Bool)
    (ans : List String) (n : Nat) (l : String) (rest pre : List String)
    (hb : isBlank (stripBOM l) = false)
    (ht : rowTib tr hl vi (stripBOM l) = none) :
    processRows tr hl vi sk ans n (l :: rest) =
      (if sk then
        let r := processRows tr hl vi sk ans (n + 1) rest
        ⟨rowOut hl (stripBOM l) "" :: r.output, (n + 1) :: r.errors, r.aborted, r.answersLeft⟩
      else if isAffirmative (ans.headD "") then
        let r := processRows tr hl vi sk ans.tail (n + 1) rest
        ⟨rowOut hl (stripBOM l) "" :: r.output, (n + 1) :: r.errors, r.aborted, r.answersLeft⟩
      else ⟨[], [n + 1], true, ans.tail⟩) ∧
    ((processRows tr hl vi sk ans n pre).aborted = false →
      ∃ t, (processRows tr hl vi sk ans n (pre ++ l :: rest)).output =
        (processRows tr hl vi sk ans n pre).output ++ t) :=
  ⟨processRows_failure_step tr hl vi sk ans n l rest hb ht,
   processRows_output_extends tr hl vi sk pre (l :: rest) ans n⟩

/-- C2 witness: the failing row `x` under skip mode, with one failing but
emitted line `y` written before it whose output is preserved. -/
theorem c2_witness :
    processRows (fun _ => (none : Option String)) 1 0 true [] 1 ["x"] =
      (if true then
        let r := processRows (fun _ => (none : Option String)) 1 0 true [] 2 []
        ⟨rowOut 1 (stripBOM "x") "" :: r.output, 2 :: r.errors, r.aborted, r.answersLeft⟩
      else if isAffirmative (([] : List String).headD "") then
        let r := processRows (fun _ => (none : Option String)) 1 0 true
          ([] : List String).tail 2 []
        ⟨rowOut 1 (stripBOM "x") "" :: r.output, 2 :: r.errors, r.aborted, r.answersLeft⟩
      else ⟨[], [2], true, ([] : List String).tail⟩) ∧
    ((processRows (fun _ => (none : Option String)) 1 0 true [] 1 ["y"]).aborted = false →
      ∃ t, (processRows (fun _ => (none : Option String)) 1 0 true [] 1
          (["y"] ++ ["x"])).output =
        (processRows (fun _ => (none : Option String)) 1 0 true [] 1 ["y"]).output ++ t) :=
  c2_failure_policy (fun _ => none) 1 0 true [] 1 "x" [] ["y"] (by decide) (by decide)

/-- C4: for every input whose header line, after BOM stripping and parsing,
contains no field exactly equal to `vocalized` (case-sensitive, no trimming),
the run terminates immediately with exit status 1 and zero output rows
written. -/
theorem c4_missing_vocalized (tr : String → Option String) (sk : Bool)
    (ans : List String) (headerLine : String) (rows : List String)
    (h : ∀ c ∈ parseCsvLine (stripBOM headerLine), c ≠ "vocalized") :
    run tr sk ans (headerLine :: rows) = ⟨1, [], [], none⟩ := by
  have hidx : (parseCsvLine (stripBOM headerLine)).findIdx? (fun c => c = "vocalized") =
      none := by
    rw [List.findIdx?_eq_none_iff]
    intro x hx
    simp [h x hx]
  exact run_cons_none tr sk ans headerLine rows hidx

/-- C4 witness: a header without the `vocalized` column exits with status 1
and writes nothing, whatever the rows hold. -/
theorem c4_witness :
    run (fun s => some s) true [] ["book|chapter", "Gen|1"] = ⟨1, [], [], none⟩ :=
  c4_missing_vocalized (fun s => some s) true [] "book|chapter" ["Gen|1"] (by decide)

/-- C6: for every input whose header contains a `vocalized` field, the first
line written to the output equals the input header with the single column
name `tiberian` appended, regardless of the content of the subsequent rows. -/
theorem c6_header_line (tr : String → Option String) (sk : Bool) (ans : List String)
    (headerLine : String) (rows : List String) (vocIdx : Nat)
    (hidx : (parseCsvLine (stripBOM headerLine)).findIdx? (fun c => c = "vocalized") =
      some vocIdx) :
    (run tr sk ans (headerLine :: rows)).output.head? =
      some (joinCsvLine (parseCsvLine (stripBOM headerLine) ++ ["tiberian"])) := by
  rw [run_cons_some tr sk ans headerLine rows vocIdx hidx]
  rfl

/-- C6 witness: the header line written even when every row fails. -/
theorem c6_witness :
    (run (fun _ => (none : Option String)) true [] ["book|vocalized", "zz|yy"]).output.head? =
      some (joinCsvLine (parseCsvLine (stripBOM "book|vocalized") ++ ["tiberian"])) :=
  c6_header_line (fun _ => none) true [] "book|vocalized" ["zz|yy"] 1 (by decide)

/-- C5: in interactive mode, when the first data row fails and the operator
answer, trimmed and lowercased, is neither `y` nor `yes` (a missing answer at
end of input reads as the empty string), the run terminates with exit status
1 having emitted no further output rows, with the output written so far — the
header — intact; when the normalized answer is `y` or `yes`, the row is
emitted with an empty transliteration field and processing continues with the
next row. -/
theorem c5_interactive_prompt (tr : String → Option String) (ans : List String)
    (headerLine l : String) (rest : List String) (vocIdx : Nat)
    (hidx : (parseCsvLine (stripBOM headerLine)).findIdx? (fun c => c = "vocalized") =
      some vocIdx)
    (hb : isBlank (stripBOM l) = false)
    (ht : rowTib tr (parseCsvLine (stripBOM headerLine)).length vocIdx (stripBOM l) = none) :
    (normalizeAnswer (ans.headD "") ≠ "y" → normalizeAnswer (ans.headD "") ≠ "yes" →
      run tr false ans (headerLine :: l :: rest) =
        ⟨1, [joinCsvLine (parseCsvLine (stripBOM headerLine) ++ ["tiberian"])], [2],
         some FinalMsg.completedWithErrors⟩) ∧
    (normalizeAnswer (ans.headD "") = "y" ∨ normalizeAnswer (ans.headD "") = "yes" →
      run tr false ans (headerLine :: l :: rest) =
        (let r := processRows tr (parseCsvLine (stripBOM headerLine)).length vocIdx false
          ans.tail 2 rest
         ⟨if r.aborted then 1 else 0,
          joinCsvLine (parseCsvLine (stripBOM headerLine) ++ ["tiberian"]) ::
            rowOut (parseCsvLine (stripBOM headerLine)).length (stripBOM l) "" :: r.output,
          2 :: r.errors,
          some (if r.aborted then FinalMsg.completedWithErrors else FinalMsg.wrote)⟩)) := by
  constructor
  · intro h1 h2
    have haff : isAffirmative (ans.headD "") = false := by
      unfold isAffirmative
      rw [decide_eq_false h1, decide_eq_false h2]
      rfl
    rw [run_cons_some tr false ans headerLine (l :: rest) vocIdx hidx,
      processRows_failure_step tr _ vocIdx false ans 1 l rest hb ht, haff]
    simp
  · intro h
    have haff : isAffirmative (ans.headD "") = true := by
      unfold isAffirmative
      rcases h with h | h
      · rw [decide_eq_true h]
        simp
      · rw [decide_eq_true h]
        simp
    rw [run_cons_some tr false ans headerLine (l :: rest) vocIdx hidx,
      processRows_failure_step tr _ vocIdx false ans 1 l rest hb ht, haff]
    simp

/-- C5 witness: end of input on the prompt (no operator answers) counts as a
non-affirmative answer and aborts the run after the header. -/
theorem c5_witness :
    (normalizeAnswer (([] : List String).headD "") ≠ "y" →
      normalizeAnswer (([] : List String).headD "") ≠ "yes" →
      run (fun _ => (none : Option String)) false [] ["vocalized", "x"] =
        ⟨1, [joinCsvLine (parseCsvLine (stripBOM "vocalized") ++ ["tiberian"])], [2],
         some FinalMsg.completedWithErrors⟩) ∧
    (normalizeAnswer (([] : List String).headD "") = "y" ∨
      normalizeAnswer (([] : List String).headD "") = "yes" →
      run (fun _ => (none : Option String)) false [] ["vocalized", "x"] =
        (let r := processRows (fun _ => (none : Option String))
          (parseCsvLine (stripBOM "vocalized")).length 0 false ([] : List String).tail 2 []
         ⟨if r.aborted then 1 else 0,
          joinCsvLine (parseCsvLine (stripBOM "vocalized") ++ ["tiberian"]) ::
            rowOut (parseCsvLine (stripBOM "vocalized")).length (stripBOM "x") "" :: r.output,
          2 :: r.errors,
          some (if r.aborted then FinalMsg.completedWithErrors else FinalMsg.wrote)⟩)) :=
  c5_interactive_prompt (fun _ => none) [] "vocalized" "x" [] 0
    (by decide) (by decide) (by decide)

/-- C8: blank lines after the header produce no output row, yet every
physical line, blank ones included, increments the 1-based line counter used
in failure diagnostics, the header counting as line 1: a failing row preceded
in the file by the header and `pre.length` blank lines is reported at line
number `pre.length + 2`. -/
theorem c8_blank_lines_counted (tr : String → Option String) (ans : List String)
    (headerLine : String) (pre : List String) (l : String) (vocIdx : Nat)
    (hidx : (parseCsvLine (stripBOM headerLine)).findIdx? (fun c => c = "vocalized") =
      some vocIdx)
    (hpre : ∀ b ∈ pre, isBlank (stripBOM b) = true)
    (hb : isBlank (stripBOM l) = false)
    (ht : rowTib tr (parseCsvLine (stripBOM headerLine)).length vocIdx (stripBOM l) = none) :
    run tr true ans (headerLine :: (pre ++ [l])) =
      ⟨0, [joinCsvLine (parseCsvLine (stripBOM headerLine) ++ ["tiberian"]),
           rowOut (parseCsvLine (stripBOM headerLine)).length (stripBOM l) ""],
       [pre.length + 2], some FinalMsg.wrote⟩ := by
  rw [run_cons_some tr true ans headerLine (pre ++ [l]) vocIdx hidx,
    processRows_blanks_consumed tr _ vocIdx true pre [l] ans 1 hpre,
    processRows_failure_step tr _ vocIdx true ans (1 + pre.length) l [] hb ht]
  have harith : 1 + pre.length + 1 = pre.length + 2 := by omega
  simp [harith, processRows_nil]

/-- C8 witness: two blank lines between the header and the failing row push
its diagnostic to line number 4. -/
theorem c8_witness :
    run (fun _ => (none : Option String)) true [] ["vocalized", "", " ", "x"] =
      ⟨0, [joinCsvLine (parseCsvLine (stripBOM "vocalized") ++ ["tiberian"]),
           rowOut (parseCsvLine (stripBOM "vocalized")).length (stripBOM "x") ""],
       [(["", " "] : List String).length + 2], some FinalMsg.wrote⟩ :=
  c8_blank_lines_counted (fun _ => none) [] "vocalized" ["", " "] "x" 0
    (by decide) (by decide) (by decide) (by decide)

/-- C9 counterexample: a skip-mode run in which a per-row transliteration
error occurred (one diagnostic was logged) nevertheless prints the
clean-completion `Wrote:` message, not the completion-with-errors message. -/
theorem c9_counterexample :
    (run (fun _ => (none : Option String)) true [] ["vocalized", "x"]).errors ≠ [] ∧
    (run (fun _ => (none : Option String)) true [] ["vocalized", "x"]).finalMessage =
      some FinalMsg.wrote := by
  constructor <;> decide

/-- C9 (amended): for every run that reaches end of input, the final status
line distinguishes operator-aborted runs, not runs with errors: the
completion-with-errors message is printed exactly when the run ends with exit
status 1 (the operator declined the interactive prompt), and a skip-mode run
never prints it even when per-row errors occurred. -/
theorem c9_final_status (tr : String → Option String) (sk : Bool)
    (ans lines : List String) :
    ((run tr sk ans lines).finalMessage = some FinalMsg.completedWithErrors ↔
      (run tr sk ans lines).exitCode = 1 ∧ (run tr sk ans lines).finalMessage ≠ none) ∧
    (run tr true ans lines).finalMessage ≠ some FinalMsg.completedWithErrors := by
  constructor
  · cases lines with
    | nil => simp [run]
    | cons hd rest =>
      cases hfi : (parseCsvLine (stripBOM hd)).findIdx? (fun c => c = "vocalized") with
      | none => rw [run_cons_none tr sk ans hd rest hfi]; simp
      | some vi =>
        rw [run_cons_some tr sk ans hd rest vi hfi]
        cases habr : (processRows tr (parseCsvLine (stripBOM hd)).length vi sk ans 1
            rest).aborted
        · simp [habr]
        · simp [habr]
  · cases lines with
    | nil => simp [run]
    | cons hd rest =>
      cases hfi : (parseCsvLine (stripBOM hd)).findIdx? (fun c => c = "vocalized") with
      | none => rw [run_cons_none tr true ans hd rest hfi]; simp
      | some vi =>
        rw [run_cons_some tr true ans hd rest vi hfi]
        simp [processRows_skip_not_aborted tr (parseCsvLine (stripBOM hd)).length vi rest ans 1]

end HebTranslit
